import Mathlib

/-!
Verification of the `MyContainer` repository.

Shallow embedding of `src/include/MyContainer.hpp` (namespace `myns`,
class template `MyContainer<T>`) instantiated at `T = int`, together with
theorems settling the spec claims.

The container's backing store `std::vector<T> data` is modelled as a
`List Int`.  Each of the six iterator classes is modelled by the data it
actually owns in the C++ source:

* `AscendingOrder`, `DescendingOrder`, `SideCrossOrder` and
  `MiddleOutOrder` copy a freshly computed sequence into a member vector
  at construction time;
* `Order` and `ReverseOrder` own no sequence: they hold a reference
  `const MyContainer& cont` to the live container and re-read
  `cont.get_data()` inside `operator*` and `end()`.  Their traversal
  functions therefore take the container's contents *at traversal time*
  as an argument.

Runtime errors (`std::runtime_error("Element not found")`,
`std::out_of_range`) are modelled by the inductive type `CppError`.
-/

namespace MyContainer

/-- The element type: the development instantiates the class template at
`T = int`, modelled by unbounded `Int` (no claim involves overflow). -/
abbrev Elem := Int

/-- The two runtime error conditions the source can raise:
`std::runtime_error("Element not found")` in `remove`, and
`std::out_of_range` in the checked accessors and iterator dereferences. -/
inductive CppError where
  | notFound
  | outOfRange
deriving DecidableEq

/-- Source `MyContainer<T>::add` (MyContainer.hpp:80-83):
`data.push_back(value)` appends at the end. -/
def add (data : List Elem) (v : Elem) : List Elem :=
  data ++ [v]

/-- Source `MyContainer<T>::remove` (MyContainer.hpp:87-97).  The method
first runs `std::find`; if no element compares equal to `value` it throws
`std::runtime_error("Element not found")` before touching `data`, so the
store is returned unchanged together with the error.  Otherwise
`std::remove` + `erase` delete every slot equal to `value`, keeping the
remaining slots in their original relative order: a filter.  The result
pairs the vector contents after the call with the error thrown, if any. -/
def remove (data : List Elem) (v : Elem) : List Elem × Option CppError :=
  if data.contains v = false then
    (data, some CppError.notFound)
  else
    (data.filter (fun x => x != v), none)

/-- A single mutation of the backing store, used to express the claims
about views observing (or not observing) later mutations. -/
inductive Mut where
  | add (v : Elem)
  | rem (v : Elem)

/-- The store contents after one mutation: `add` appends, `rem` is the
state left by a call to `remove` (unchanged when the call throws). -/
def applyMut (s : List Elem) : Mut → List Elem
  | Mut.add v => add s v
  | Mut.rem v => (remove s v).1

/-- The store contents after a sequence of mutations. -/
def applyMuts (s : List Elem) (ms : List Mut) : List Elem :=
  ms.foldl applyMut s

/-- Source `std::sort(sorted.begin(), sorted.end())` in the
`AscendingOrder` and `SideCrossOrder` constructors (MyContainer.hpp:161,
215): sorts ascending by `operator<`.  `std::sort`'s contract determines
the result up to order of ties, and on `Int` equal elements are
indistinguishable, so the sorted list is unique; it is computed here by
`List.insertionSort`. -/
def cppSortAsc (l : List Elem) : List Elem :=
  l.insertionSort (fun a b => a ≤ b)

/-- Source `std::sort(sorted.begin(), sorted.end(), std::greater<T>())`
in the `DescendingOrder` constructor (MyContainer.hpp:188): sorts
descending; on `Int` the result is the unique non-increasing
rearrangement. -/
def cppSortDesc (l : List Elem) : List Elem :=
  l.insertionSort (fun a b => b ≤ a)

/-- Source loop of the `SideCrossOrder` constructor
(MyContainer.hpp:222-231), rendered functionally: the elements pushed
onto `order` by the iteration with indices `left`, `right`.  Each
iteration pushes `sorted[left]` (and `sorted[right]` when the two
indices differ), then increments `left` and decrements `right` (the
decrement is guarded by `right > 0` because `right` is a `size_t`). -/
def sideCrossLoop (sorted : List Elem) (left right : Nat) : List Elem :=
  if left ≤ right then
    if left = right then
      sorted.getD left 0 ::
        sideCrossLoop sorted (left + 1) (if 0 < right then right - 1 else right)
    else
      sorted.getD left 0 :: sorted.getD right 0 ::
        sideCrossLoop sorted (left + 1) (if 0 < right then right - 1 else right)
  else []
termination_by right + 1 - left
decreasing_by
  all_goals split <;> omega

/-- Source `SideCrossOrder` constructor (MyContainer.hpp:213-232): the
member vector `order`, computed from a sorted copy of the container's
data; empty input leaves `order` empty. -/
def sideCrossSeq (data : List Elem) : List Elem :=
  let sorted := cppSortAsc data
  if sorted.isEmpty then [] else sideCrossLoop sorted 0 (sorted.length - 1)

/-- Source loop of the `MiddleOutOrder` constructor
(MyContainer.hpp:315-318), rendered functionally with the same `int`
indices `left` (moving down) and `right` (moving up): each iteration
pushes `data[left]` when `left >= 0` and `data[right]` when
`right < data.size()`, then moves the corresponding indices outward. -/
def middleOutLoop (data : List Elem) (left right : Int) : List Elem :=
  if 0 ≤ left then
    if right < (data.length : Int) then
      data.getD left.toNat 0 :: data.getD right.toNat 0 ::
        middleOutLoop data (left - 1) (right + 1)
    else
      data.getD left.toNat 0 :: middleOutLoop data (left - 1) right
  else
    if right < (data.length : Int) then
      data.getD right.toNat 0 :: middleOutLoop data left (right + 1)
    else []
termination_by (left + 1).toNat + ((data.length : Int) - right).toNat
decreasing_by
  all_goals omega

/-- Source `MiddleOutOrder` constructor (MyContainer.hpp:304-319): the
member vector `order`; for non-empty data it starts with
`data[size / 2]` and then runs the outward loop with
`left = mid - 1`, `right = mid + 1`. -/
def middleOutSeq (data : List Elem) : List Elem :=
  if data.isEmpty then []
  else
    data.getD (data.length / 2) 0 ::
      middleOutLoop data (((data.length / 2 : Nat) : Int) - 1)
        (((data.length / 2 : Nat) : Int) + 1)

/-- The shared dereference of the index-based iterators: `seq[pos]` with
the guard `if (pos >= seq.size()) throw std::out_of_range(...)` found in
every `operator*` of the six classes. -/
def derefAt (seq : List Elem) (pos : Nat) : Except CppError Elem :=
  if h : pos < seq.length then Except.ok (seq.get ⟨pos, h⟩)
  else Except.error CppError.outOfRange

/-- Source `ReverseOrder::operator*` (MyContainer.hpp:257-261): reads
the *live* container data and returns `data[data.size() - 1 - pos]`,
throwing `std::out_of_range` when `pos >= data.size()`. -/
def revDerefAt (current : List Elem) (pos : Nat) : Except CppError Elem :=
  if h : pos < current.length then
    Except.ok (current.get ⟨current.length - 1 - pos, by omega⟩)
  else Except.error CppError.outOfRange

/-- Driving a cursor: starting at position `pos`, perform `n` iterations
of `out.push_back(*it); ++it`, propagating an `out_of_range` throw from
the dereference. -/
def driveAux (d : Nat → Except CppError Elem) (pos : Nat) :
    Nat → Except CppError (List Elem)
  | 0 => Except.ok []
  | n + 1 =>
    match d pos with
    | Except.ok x => (driveAux d (pos + 1) n).map (fun l => x :: l)
    | Except.error e => Except.error e

/-- Driving a cursor from position `pos` up to the end position `fin`
(the loop `while (it != end) { out.push_back(*it); ++it; }`, which runs
`fin - pos` times when `pos ≤ fin`). -/
def drive (d : Nat → Except CppError Elem) (pos fin : Nat) :
    Except CppError (List Elem) :=
  driveAux d pos (fin - pos)

/-- Full traversal of an `AscendingOrder` view constructed while the
store held `created`: the view owns the sorted copy
(MyContainer.hpp:159-162), so the store contents at traversal time are
irrelevant to it; `begin()` is at position `0` and `end()` at the owned
vector's size. -/
def ascTraverse (created _current : List Elem) : Except CppError (List Elem) :=
  drive (derefAt (cppSortAsc created)) 0 (cppSortAsc created).length

/-- Full traversal of a `DescendingOrder` view constructed at `created`
(MyContainer.hpp:186-200); owns its descending-sorted copy. -/
def descTraverse (created _current : List Elem) : Except CppError (List Elem) :=
  drive (derefAt (cppSortDesc created)) 0 (cppSortDesc created).length

/-- Full traversal of a `SideCrossOrder` view constructed at `created`
(MyContainer.hpp:213-243); owns its computed `order` vector. -/
def sideCrossTraverse (created _current : List Elem) :
    Except CppError (List Elem) :=
  drive (derefAt (sideCrossSeq created)) 0 (sideCrossSeq created).length

/-- Full traversal of a `MiddleOutOrder` view constructed at `created`
(MyContainer.hpp:304-330); owns its computed `order` vector. -/
def middleOutTraverse (created _current : List Elem) :
    Except CppError (List Elem) :=
  drive (derefAt (middleOutSeq created)) 0 (middleOutSeq created).length

/-- Full traversal of an `Order` view (MyContainer.hpp:273-292).  The
class owns only `pos` and a reference to the container; `operator*`
reads `cont.get_data()[pos]` and `end()` reads `cont.get_data().size()`
at call time, so the traversal is a function of the store contents at
traversal time, not at view-creation time. -/
def ordTraverse (_created current : List Elem) : Except CppError (List Elem) :=
  drive (derefAt current) 0 current.length

/-- Full traversal of a `ReverseOrder` view (MyContainer.hpp:249-268).
Like `Order`, it owns only `pos` and a reference; `operator*` reads
`data[data.size() - 1 - pos]` from the live container. -/
def revTraverse (_created current : List Elem) : Except CppError (List Elem) :=
  drive (revDerefAt current) 0 current.length

/-- Iterator object of class `AscendingOrder` (MyContainer.hpp:152-174):
the owned sorted copy and the cursor position. -/
structure AscendingOrder where
  sorted : List Elem
  pos : Nat
deriving DecidableEq

/-- Constructor `AscendingOrder(const MyContainer&)`: copies and sorts,
leaving `pos = 0`. -/
def ascendingOrder (c : List Elem) : AscendingOrder :=
  ⟨cppSortAsc c, 0⟩

/-- Source `AscendingOrder::operator++` (MyContainer.hpp:169):
`++pos` unconditionally. -/
def AscendingOrder.inc (it : AscendingOrder) : AscendingOrder :=
  ⟨it.sorted, it.pos + 1⟩

/-- Source `AscendingOrder::operator==` (MyContainer.hpp:170): compares
positions only. -/
def AscendingOrder.beqIter (a b : AscendingOrder) : Bool :=
  a.pos == b.pos

/-- Source `AscendingOrder::begin` (MyContainer.hpp:172): returns
`*this`, a copy of the iterator at its current position. -/
def AscendingOrder.begin (it : AscendingOrder) : AscendingOrder :=
  it

/-- Source `AscendingOrder::end` (MyContainer.hpp:173): a copy with
`pos = sorted.size()`. -/
def AscendingOrder.endIter (it : AscendingOrder) : AscendingOrder :=
  ⟨it.sorted, it.sorted.length⟩

/-- Iterator object of class `DescendingOrder` (MyContainer.hpp:179-201). -/
structure DescendingOrder where
  sorted : List Elem
  pos : Nat
deriving DecidableEq

/-- Constructor `DescendingOrder(const MyContainer&)`. -/
def descendingOrder (c : List Elem) : DescendingOrder :=
  ⟨cppSortDesc c, 0⟩

/-- Source `DescendingOrder::operator++` (MyContainer.hpp:196). -/
def DescendingOrder.inc (it : DescendingOrder) : DescendingOrder :=
  ⟨it.sorted, it.pos + 1⟩

/-- Source `DescendingOrder::operator==` (MyContainer.hpp:197). -/
def DescendingOrder.beqIter (a b : DescendingOrder) : Bool :=
  a.pos == b.pos

/-- Source `DescendingOrder::begin` (MyContainer.hpp:199). -/
def DescendingOrder.begin (it : DescendingOrder) : DescendingOrder :=
  it

/-- Source `DescendingOrder::end` (MyContainer.hpp:200). -/
def DescendingOrder.endIter (it : DescendingOrder) : DescendingOrder :=
  ⟨it.sorted, it.sorted.length⟩

/-- Iterator object of class `SideCrossOrder` (MyContainer.hpp:206-244). -/
structure SideCrossOrder where
  order : List Elem
  pos : Nat
deriving DecidableEq

/-- Constructor `SideCrossOrder(const MyContainer&)`. -/
def sideCrossOrder (c : List Elem) : SideCrossOrder :=
  ⟨sideCrossSeq c, 0⟩

/-- Source `SideCrossOrder::operator++` (MyContainer.hpp:239). -/
def SideCrossOrder.inc (it : SideCrossOrder) : SideCrossOrder :=
  ⟨it.order, it.pos + 1⟩

/-- Source `SideCrossOrder::operator==` (MyContainer.hpp:240). -/
def SideCrossOrder.beqIter (a b : SideCrossOrder) : Bool :=
  a.pos == b.pos

/-- Source `SideCrossOrder::begin` (MyContainer.hpp:242). -/
def SideCrossOrder.begin (it : SideCrossOrder) : SideCrossOrder :=
  it

/-- Source `SideCrossOrder::end` (MyContainer.hpp:243). -/
def SideCrossOrder.endIter (it : SideCrossOrder) : SideCrossOrder :=
  ⟨it.order, it.order.length⟩

/-- Iterator object of class `MiddleOutOrder` (MyContainer.hpp:297-331). -/
structure MiddleOutOrder where
  order : List Elem
  pos : Nat
deriving DecidableEq

/-- Constructor `MiddleOutOrder(const MyContainer&)`. -/
def middleOutOrder (c : List Elem) : MiddleOutOrder :=
  ⟨middleOutSeq c, 0⟩

/-- Source `MiddleOutOrder::operator++` (MyContainer.hpp:326). -/
def MiddleOutOrder.inc (it : MiddleOutOrder) : MiddleOutOrder :=
  ⟨it.order, it.pos + 1⟩

/-- Source `MiddleOutOrder::operator==` (MyContainer.hpp:327). -/
def MiddleOutOrder.beqIter (a b : MiddleOutOrder) : Bool :=
  a.pos == b.pos

/-- Source `MiddleOutOrder::begin` (MyContainer.hpp:329). -/
def MiddleOutOrder.begin (it : MiddleOutOrder) : MiddleOutOrder :=
  it

/-- Source `MiddleOutOrder::end` (MyContainer.hpp:330). -/
def MiddleOutOrder.endIter (it : MiddleOutOrder) : MiddleOutOrder :=
  ⟨it.order, it.order.length⟩

/-- Iterator object of class `Order` (MyContainer.hpp:273-292): it owns
only the cursor position; `cont` is a reference to the live container,
modelled by passing the current contents to the operations that read it. -/
structure Order where
  pos : Nat
deriving DecidableEq

/-- Constructor `Order(const MyContainer&)` (MyContainer.hpp:279). -/
def orderView (_c : List Elem) : Order :=
  ⟨0⟩

/-- Source `Order::operator++` (MyContainer.hpp:287). -/
def Order.inc (it : Order) : Order :=
  ⟨it.pos + 1⟩

/-- Source `Order::operator==` (MyContainer.hpp:288). -/
def Order.beqIter (a b : Order) : Bool :=
  a.pos == b.pos

/-- Source `Order::begin` (MyContainer.hpp:290): returns `*this`. -/
def Order.begin (it : Order) : Order :=
  it

/-- Source `Order::end` (MyContainer.hpp:291): reads
`cont.get_data().size()` from the live container at call time. -/
def Order.endIter (_it : Order) (current : List Elem) : Order :=
  ⟨current.length⟩

/-- Iterator object of class `ReverseOrder` (MyContainer.hpp:249-268):
owns only the cursor position plus the live reference. -/
structure ReverseOrder where
  pos : Nat
deriving DecidableEq

/-- Constructor `ReverseOrder(const MyContainer&)` (MyContainer.hpp:255). -/
def reverseOrder (_c : List Elem) : ReverseOrder :=
  ⟨0⟩

/-- Source `ReverseOrder::operator++` (MyContainer.hpp:263):
`++pos` unconditionally. -/
def ReverseOrder.inc (it : ReverseOrder) : ReverseOrder :=
  ⟨it.pos + 1⟩

/-- Source `ReverseOrder::operator==` (MyContainer.hpp:264). -/
def ReverseOrder.beqIter (a b : ReverseOrder) : Bool :=
  a.pos == b.pos

/-- Source `ReverseOrder::begin` (MyContainer.hpp:266): returns `*this`. -/
def ReverseOrder.begin (it : ReverseOrder) : ReverseOrder :=
  it

/-- Source `ReverseOrder::end` (MyContainer.hpp:267): reads
`cont.get_data().size()` from the live container at call time. -/
def ReverseOrder.endIter (_it : ReverseOrder) (current : List Elem) : ReverseOrder :=
  ⟨current.length⟩

end MyContainer

namespace MyContainer

theorem driveAux_derefAt (seq : List Elem) :
    ∀ (n pos : Nat), pos + n = seq.length →
      driveAux (derefAt seq) pos n = Except.ok (seq.drop pos) := by
  intro n
  induction n with
  | zero =>
    intro pos h
    simp only [driveAux]
    rw [List.drop_of_length_le (by omega)]
  | succ n ih =>
    intro pos h
    have hlt : pos < seq.length := by omega
    simp only [driveAux, derefAt, dif_pos hlt]
    rw [ih (pos + 1) (by omega)]
    simp only [Except.map]
    rw [List.drop_eq_getElem_cons hlt]
    simp

theorem drive_derefAt (seq : List Elem) :
    drive (derefAt seq) 0 seq.length = Except.ok seq := by
  have h := driveAux_derefAt seq seq.length 0 (by omega)
  simpa [drive] using h

theorem revDerefAt_eq (current : List Elem) :
    revDerefAt current = derefAt current.reverse := by
  funext pos
  simp only [revDerefAt, derefAt, List.length_reverse]
  by_cases h : pos < current.length
  · rw [dif_pos h, dif_pos h]
    simp only [List.get_eq_getElem]
    rw [List.getElem_reverse]
  · rw [dif_neg h, dif_neg h]

theorem ascTraverse_eq (created current : List Elem) :
    ascTraverse created current = Except.ok (cppSortAsc created) :=
  drive_derefAt (cppSortAsc created)

theorem descTraverse_eq (created current : List Elem) :
    descTraverse created current = Except.ok (cppSortDesc created) :=
  drive_derefAt (cppSortDesc created)

theorem sideCrossTraverse_eq (created current : List Elem) :
    sideCrossTraverse created current = Except.ok (sideCrossSeq created) :=
  drive_derefAt (sideCrossSeq created)

theorem middleOutTraverse_eq (created current : List Elem) :
    middleOutTraverse created current = Except.ok (middleOutSeq created) :=
  drive_derefAt (middleOutSeq created)

theorem ordTraverse_eq (created current : List Elem) :
    ordTraverse created current = Except.ok current :=
  drive_derefAt current

theorem revTraverse_eq (created current : List Elem) :
    revTraverse created current = Except.ok current.reverse := by
  unfold revTraverse
  rw [revDerefAt_eq]
  have h := drive_derefAt current.reverse
  rwa [List.length_reverse] at h

end MyContainer

namespace MyContainer

/-- Spec-level description of the side-cross arrangement: alternately
emit the lowest and highest unconsumed element of a list, moving inward;
a lone middle element is emitted once. -/
def altEnds : List Elem → List Elem
  | [] => []
  | [x] => [x]
  | x :: y :: rest =>
    x :: (y :: rest).getLast (by simp) :: altEnds (y :: rest).dropLast
termination_by l => l.length
decreasing_by
  simp [List.length_dropLast]
  omega

theorem altEnds_cons (x : Elem) (l : List Elem) (h : l ≠ []) :
    altEnds (x :: l) = x :: l.getLast h :: altEnds l.dropLast := by
  match l with
  | [] => exact absurd rfl h
  | y :: rest => rw [altEnds]

theorem sideCrossLoop_eq (l : List Elem) (n : Nat) :
    ∀ (left right : Nat), right + 1 - left ≤ n → left ≤ right →
      right < l.length →
      sideCrossLoop l left right =
        altEnds ((l.drop left).take (right + 1 - left)) := by
  induction n with
  | zero =>
    intro left right hb hlr _
    omega
  | succ n ih =>
    intro left right hb hlr hrl
    have hll : left < l.length := by omega
    have hslice : ∀ m : Nat, (l.drop left).take (m + 1) =
        l[left] :: (l.drop (left + 1)).take m := by
      intro m
      rw [List.drop_eq_getElem_cons hll, List.take_succ_cons]
    by_cases heq : left = right
    · subst heq
      rw [sideCrossLoop, if_pos (le_refl left), if_pos rfl]
      have hrec : sideCrossLoop l (left + 1)
          (if 0 < left then left - 1 else left) = [] := by
        rw [sideCrossLoop, if_neg (by split <;> omega)]
      rw [hrec]
      have h1 : left + 1 - left = 0 + 1 := by omega
      rw [h1, hslice 0]
      rw [List.getD_eq_getElem _ _ hll]
      simp [altEnds]
    · have hlt : left < right := by omega
      have h0r : 0 < right := by omega
      rw [sideCrossLoop, if_pos hlr, if_neg heq, if_pos h0r]
      have hrec : sideCrossLoop l (left + 1) (right - 1) =
          altEnds ((l.drop (left + 1)).take (right - 1 + 1 - (left + 1))) := by
        by_cases hc : left + 1 ≤ right - 1
        · exact ih (left + 1) (right - 1) (by omega) hc (by omega)
        · have hr : right = left + 1 := by omega
          rw [sideCrossLoop, if_neg (by omega)]
          have : right - 1 + 1 - (left + 1) = 0 := by omega
          rw [this]
          simp [altEnds]
      rw [hrec]
      -- now compute the right-hand side slice
      have h1 : right + 1 - left = (right - left - 1 + 1) + 1 := by omega
      rw [h1, hslice (right - left - 1 + 1)]
      set rest := (l.drop (left + 1)).take (right - left - 1 + 1) with hrest
      have hrestlen : rest.length = right - left := by
        rw [hrest, List.length_take, List.length_drop]
        omega
      have hrestne : rest ≠ [] := by
        intro hnil
        rw [hnil] at hrestlen
        simp at hrestlen
        omega
      rw [altEnds_cons l[left] rest hrestne]
      have hlast : rest.getLast hrestne = l[right] := by
        rw [List.getLast_eq_getElem]
        simp only [hrest, List.getElem_take, List.getElem_drop,
          List.length_take, List.length_drop]
        congr 1
        omega
      have hdrop : rest.dropLast = (l.drop (left + 1)).take (right - 1 + 1 - (left + 1)) := by
        rw [List.dropLast_eq_take, hrestlen, hrest, List.take_take]
        congr 1
        omega
      rw [hlast, hdrop]
      rw [List.getD_eq_getElem _ _ hll, List.getD_eq_getElem _ _ hrl]

theorem sideCrossSeq_eq_altEnds (data : List Elem) :
    sideCrossSeq data = altEnds (cppSortAsc data) := by
  unfold sideCrossSeq
  by_cases h : (cppSortAsc data).isEmpty
  · rw [if_pos h]
    rw [List.isEmpty_iff] at h
    rw [h]
    simp [altEnds]
  · rw [if_neg h]
    rw [List.isEmpty_iff] at h
    have hlen : 0 < (cppSortAsc data).length := List.length_pos.mpr h
    rw [sideCrossLoop_eq (cppSortAsc data) ((cppSortAsc data).length) 0
      ((cppSortAsc data).length - 1) (by omega) (by omega) (by omega)]
    have : (cppSortAsc data).length - 1 + 1 - 0 = (cppSortAsc data).length := by omega
    rw [this]
    simp

end MyContainer

namespace MyContainer

/-- Spec-level alternation: take alternately from the first and the
second list, starting with the first, simply skipping a side once it is
exhausted. -/
def interleave : List Elem → List Elem → List Elem
  | [], ys => ys
  | x :: xs, [] => x :: xs
  | x :: xs, y :: ys => x :: y :: interleave xs ys

theorem interleave_nil_right (xs : List Elem) : interleave xs [] = xs := by
  match xs with
  | [] => rfl
  | x :: xs => rfl

theorem middleOutLoop_eq (data : List Elem) (n : Nat) :
    ∀ (left right : Int), -1 ≤ left → left < (data.length : Int) →
      0 ≤ right →
      (left + 1).toNat + ((data.length : Int) - right).toNat ≤ n →
      middleOutLoop data left right =
        interleave ((data.take (left + 1).toNat).reverse)
          (data.drop right.toNat) := by
  induction n with
  | zero =>
    intro left right h1 h2 h3 hb
    have hl : ¬ 0 ≤ left := by omega
    have hr : ¬ right < (data.length : Int) := by omega
    rw [middleOutLoop, if_neg hl, if_neg hr]
    have ht : (left + 1).toNat = 0 := by omega
    have hd : data.length ≤ right.toNat := by omega
    rw [ht, List.take_zero, List.reverse_nil, List.drop_of_length_le hd]
    rfl
  | succ n ih =>
    intro left right h1 h2 h3 hb
    have htake : ∀ (k : Nat) (hk : k < data.length),
        (data.take (k + 1)).reverse = data[k] :: (data.take k).reverse := by
      intro k hk
      rw [List.take_succ, List.getElem?_eq_getElem hk]
      simp
    by_cases hl : 0 ≤ left
    · have hltn : left.toNat < data.length := by omega
      have htn1 : (left + 1).toNat = left.toNat + 1 := by omega
      have htn0 : (left - 1 + 1).toNat = left.toNat := by omega
      by_cases hr : right < (data.length : Int)
      · have hrtn : right.toNat < data.length := by omega
        have hrtn1 : (right + 1).toNat = right.toNat + 1 := by omega
        rw [middleOutLoop, if_pos hl, if_pos hr]
        rw [ih (left - 1) (right + 1) (by omega) (by omega) (by omega) (by omega)]
        rw [htn1, htake left.toNat hltn]
        rw [List.drop_eq_getElem_cons hrtn, htn0, hrtn1]
        rw [List.getD_eq_getElem _ _ hltn, List.getD_eq_getElem _ _ hrtn]
        rfl
      · rw [middleOutLoop, if_pos hl, if_neg hr]
        rw [ih (left - 1) right (by omega) (by omega) (by omega) (by omega)]
        have hd : data.length ≤ right.toNat := by omega
        rw [List.drop_of_length_le hd]
        rw [htn1, htake left.toNat hltn, htn0]
        rw [List.getD_eq_getElem _ _ hltn]
        rw [interleave_nil_right, interleave_nil_right]
    · have ht : (left + 1).toNat = 0 := by omega
      by_cases hr : right < (data.length : Int)
      · have hrtn : right.toNat < data.length := by omega
        have hrtn1 : (right + 1).toNat = right.toNat + 1 := by omega
        rw [middleOutLoop, if_neg hl, if_pos hr]
        rw [ih left (right + 1) (by omega) (by omega) (by omega) (by omega)]
        rw [ht, List.take_zero, List.reverse_nil]
        rw [List.drop_eq_getElem_cons hrtn, hrtn1]
        rw [List.getD_eq_getElem _ _ hrtn]
        rfl
      · rw [middleOutLoop, if_neg hl, if_neg hr]
        have hd : data.length ≤ right.toNat := by omega
        rw [ht, List.take_zero, List.reverse_nil, List.drop_of_length_le hd]
        rfl

theorem middleOutSeq_eq (data : List Elem) (h : data ≠ []) :
    middleOutSeq data =
      data.getD (data.length / 2) 0 ::
        interleave ((data.take (data.length / 2)).reverse)
          (data.drop (data.length / 2 + 1)) := by
  have hlen : 0 < data.length := List.length_pos.mpr h
  have hmid : data.length / 2 < data.length := by omega
  unfold middleOutSeq
  rw [if_neg (by simpa [List.isEmpty_iff] using h)]
  rw [middleOutLoop_eq data (data.length + 2)
    ((data.length / 2 : Nat) - 1) ((data.length / 2 : Nat) + 1)
    (by omega) (by omega) (by omega) (by omega)]
  have h1 : (((data.length / 2 : Nat) : Int) - 1 + 1).toNat = data.length / 2 := by omega
  have h2 : (((data.length / 2 : Nat) : Int) + 1).toNat = data.length / 2 + 1 := by omega
  rw [h1, h2]

end MyContainer

namespace MyContainer

theorem countP_add_countP_not (s : List Elem) (p : Elem → Bool) :
    s.countP p + s.countP (fun a => !(p a)) = s.length := by
  induction s with
  | nil => simp
  | cons x xs ih =>
    by_cases h : p x <;> simp [List.countP_cons, h] <;> omega

theorem remove_found (s : List Elem) (v : Elem) (h : v ∈ s) :
    remove s v = (s.filter (fun x => x != v), none) := by
  unfold remove
  rw [if_neg (by simp [h])]

theorem remove_not_found (s : List Elem) (v : Elem) (h : v ∉ s) :
    remove s v = (s, some CppError.notFound) := by
  unfold remove
  rw [if_pos (by simp [h])]

theorem length_filter_ne (s : List Elem) (v : Elem) :
    (s.filter (fun x => x != v)).length + s.count v = s.length := by
  have h1 : (s.filter (fun x => x != v)).length = s.countP (fun x => x != v) :=
    (List.countP_eq_length_filter _ _).symm
  have h2 : s.count v = s.countP (fun a => !(a != v)) := by
    simp only [List.count, bne, Bool.not_not]
  rw [h1, h2, countP_add_countP_not]

theorem count_filter_ne (s : List Elem) (v : Elem) :
    (s.filter (fun x => x != v)).count v = 0 := by
  rw [List.count_eq_zero]
  intro hmem
  have := List.of_mem_filter hmem
  simp at this

theorem ascInc_iterate_pos (it : AscendingOrder) (n : Nat) :
    ((AscendingOrder.inc)^[n] it).pos = it.pos + n := by
  induction n with
  | zero => rfl
  | succ n ih =>
    rw [Function.iterate_succ_apply']
    simp [AscendingOrder.inc, ih]
    omega

theorem revInc_iterate_pos (it : ReverseOrder) (n : Nat) :
    ((ReverseOrder.inc)^[n] it).pos = it.pos + n := by
  induction n with
  | zero => rfl
  | succ n ih =>
    rw [Function.iterate_succ_apply']
    simp [ReverseOrder.inc, ih]
    omega

theorem cppSortAsc_singleton (x : Elem) : cppSortAsc [x] = [x] := rfl

theorem cppSortDesc_singleton (x : Elem) : cppSortDesc [x] = [x] := rfl

theorem sideCrossSeq_singleton (x : Elem) : sideCrossSeq [x] = [x] := by
  rw [sideCrossSeq_eq_altEnds, cppSortAsc_singleton]
  simp [altEnds]

theorem middleOutSeq_singleton (x : Elem) : middleOutSeq [x] = [x] := by
  rw [middleOutSeq_eq [x] (by simp)]
  simp [interleave]

end MyContainer

namespace MyContainer

/-- C1 counterexample: on a store holding `1`, create `Order` and
`ReverseOrder` views, then `add(2)`.  Driving the views yields `[1, 2]`
(resp. `[2, 1]`), not the `[1]` that a traversal with no mutation
produces: these two view kinds observe later store mutations. -/
theorem claim_C1_counterexample :
    ordTraverse [1] (applyMuts [1] [Mut.add 2]) = Except.ok [1, 2] ∧
    ordTraverse [1] [1] = Except.ok [1] ∧
    revTraverse [1] (applyMuts [1] [Mut.add 2]) = Except.ok [2, 1] ∧
    revTraverse [1] [1] = Except.ok [1] ∧
    ([1, 2] : List Elem) ≠ [1] ∧ ([2, 1] : List Elem) ≠ [1] :=
  ⟨rfl, rfl, rfl, rfl, by decide, by decide⟩

/-- C1 amended: the four reordering views (`AscendingOrder`,
`DescendingOrder`, `SideCrossOrder`, `MiddleOutOrder`) own a sequence
computed at construction time, so any sequence of add/remove mutations
applied afterwards leaves their full traversal unchanged; the `Order`
and `ReverseOrder` views instead read the live store at traversal time:
their traversal yields the store contents (resp. their reverse) as they
are after the mutations, not at view creation. -/
theorem claim_C1_amended (s : List Elem) (ms : List Mut) :
    ascTraverse s (applyMuts s ms) = ascTraverse s s ∧
    descTraverse s (applyMuts s ms) = descTraverse s s ∧
    sideCrossTraverse s (applyMuts s ms) = sideCrossTraverse s s ∧
    middleOutTraverse s (applyMuts s ms) = middleOutTraverse s s ∧
    ordTraverse s (applyMuts s ms) = Except.ok (applyMuts s ms) ∧
    revTraverse s (applyMuts s ms) = Except.ok (applyMuts s ms).reverse :=
  ⟨rfl, rfl, rfl, rfl, ordTraverse_eq s (applyMuts s ms),
    revTraverse_eq s (applyMuts s ms)⟩

/-- C2: `remove(v)` on a store with at least one slot equal to `v`
succeeds (no error), removes exactly `count v` slots, leaves no slot
equal to `v`, and the survivors form a sublist of the original sequence
(relative order preserved); on a store with no slot equal to `v` it
reports the NotFound error. -/
theorem claim_C2 (s : List Elem) (v : Elem) :
    (0 < s.count v →
      (remove s v).2 = none ∧
      (remove s v).1.length + s.count v = s.length ∧
      (remove s v).1.count v = 0 ∧
      List.Sublist (remove s v).1 s) ∧
    (s.count v = 0 → (remove s v).2 = some CppError.notFound) := by
  constructor
  · intro h
    have hmem : v ∈ s := List.count_pos_iff.mp h
    rw [remove_found s v hmem]
    exact ⟨rfl, length_filter_ne s v, count_filter_ne s v,
      List.filter_sublist s⟩
  · intro h
    have hmem : v ∉ s := List.count_eq_zero.mp h
    rw [remove_not_found s v hmem]

/-- C2 witness: on `[1, 2, 1]`, `remove 1` succeeds, shrinks by two and
keeps `[2]`; on `[3]`, `remove 1` reports NotFound. -/
theorem claim_C2_witness :
    ((remove [1, 2, 1] 1).2 = none ∧
      (remove [1, 2, 1] 1).1.length + ([1, 2, 1] : List Elem).count 1 =
        ([1, 2, 1] : List Elem).length ∧
      (remove [1, 2, 1] 1).1.count 1 = 0 ∧
      List.Sublist (remove [1, 2, 1] 1).1 [1, 2, 1]) ∧
    (remove [3] 1).2 = some CppError.notFound :=
  ⟨(claim_C2 [1, 2, 1] 1).1 (by decide), (claim_C2 [3] 1).2 (by decide)⟩

/-- C3 counterexample: on an empty store the `AscendingOrder` begin
cursor is already equal to the end cursor, yet advancing it yields a
cursor that is no longer equal to the end cursor: `advance` at the end
is not a no-op. -/
theorem claim_C3_counterexample :
    (ascendingOrder []).beqIter ((ascendingOrder []).endIter) = true ∧
    ((ascendingOrder []).inc).beqIter ((ascendingOrder []).endIter) ≠ true := by
  decide

/-- C3 amended: `operator++` unconditionally increments the position by
one, even for a cursor at or beyond the end; consequently a cursor that
was equal to the end cursor is, after one advance, strictly past the end
and no longer equal to the end cursor.  (Shown for the two cited
classes, `AscendingOrder` and `ReverseOrder`.) -/
theorem claim_C3_amended :
    (∀ (it : AscendingOrder), it.inc.pos = it.pos + 1 ∧
      (it.beqIter it.endIter = true → it.inc.beqIter it.endIter = false)) ∧
    (∀ (it : ReverseOrder) (current : List Elem),
      it.inc.pos = it.pos + 1 ∧
      (it.beqIter (it.endIter current) = true →
        it.inc.beqIter (it.endIter current) = false)) := by
  constructor
  · intro it
    refine ⟨rfl, ?_⟩
    intro h
    simp [AscendingOrder.beqIter, AscendingOrder.inc,
      AscendingOrder.endIter] at h ⊢
    omega
  · intro it current
    refine ⟨rfl, ?_⟩
    intro h
    simp [ReverseOrder.beqIter, ReverseOrder.inc,
      ReverseOrder.endIter] at h ⊢
    omega

/-- C3 amended witness: the advanced empty-store cursor is not equal to
the end cursor. -/
theorem claim_C3_witness :
    ((ascendingOrder []).inc).beqIter ((ascendingOrder []).endIter) = false :=
  (claim_C3_amended.1 (ascendingOrder [])).2 (by decide)

end MyContainer

namespace MyContainer

/-- C4: the Side-Cross view's sequence is the ascending sort of the
store contents consumed alternately from the low and high ends moving
inward (`altEnds`), and on the store `1, 3, 5, 7, 9` the full traversal
yields `1, 9, 3, 7, 5`. -/
theorem claim_C4 (s current : List Elem) :
    sideCrossTraverse s current = Except.ok (altEnds (cppSortAsc s)) ∧
    sideCrossTraverse [1, 3, 5, 7, 9] [1, 3, 5, 7, 9] =
      Except.ok [1, 9, 3, 7, 5] := by
  constructor
  · rw [sideCrossTraverse_eq, sideCrossSeq_eq_altEnds]
  · rw [sideCrossTraverse_eq, sideCrossSeq_eq_altEnds]
    have hsort : cppSortAsc [1, 3, 5, 7, 9] = [1, 3, 5, 7, 9] := by decide
    rw [hsort]
    simp [altEnds]

/-- C5: for a non-empty store the Middle-Out view's sequence starts at
insertion index `size / 2` and then alternates leftward and rightward
neighbours (`interleave` of the reversed left part with the right part),
skipping an exhausted side; the store `1, 2, 3, 4, 5` traverses as
`3, 2, 4, 1, 5` and `10, 20, 30, 40` as `30, 20, 40, 10`. -/
theorem claim_C5 (data current : List Elem) (h : data ≠ []) :
    middleOutTraverse data current =
      Except.ok (data.getD (data.length / 2) 0 ::
        interleave ((data.take (data.length / 2)).reverse)
          (data.drop (data.length / 2 + 1))) ∧
    middleOutTraverse [1, 2, 3, 4, 5] [1, 2, 3, 4, 5] =
      Except.ok [3, 2, 4, 1, 5] ∧
    middleOutTraverse [10, 20, 30, 40] [10, 20, 30, 40] =
      Except.ok [30, 20, 40, 10] := by
  refine ⟨?_, ?_, ?_⟩
  · rw [middleOutTraverse_eq, middleOutSeq_eq data h]
  · rw [middleOutTraverse_eq, middleOutSeq_eq _ (by decide)]
    simp [interleave]
  · rw [middleOutTraverse_eq, middleOutSeq_eq _ (by decide)]
    simp [interleave]

/-- C5 witness: the traversal of the concrete store `1, 2, 3, 4, 5`. -/
theorem claim_C5_witness :
    middleOutTraverse [1, 2, 3, 4, 5] [1, 2, 3, 4, 5] =
      Except.ok [3, 2, 4, 1, 5] :=
  (claim_C5 [1, 2, 3, 4, 5] [1, 2, 3, 4, 5] (by decide)).2.1

/-- C6: the Ascending Order view's full traversal succeeds, its output
is non-decreasing under `≤` and is a permutation of the store contents
at view creation. -/
theorem claim_C6 (created current : List Elem) :
    ∃ out, ascTraverse created current = Except.ok out ∧
      out.Sorted (fun a b => a ≤ b) ∧ out.Perm created := by
  refine ⟨cppSortAsc created, ascTraverse_eq created current, ?_, ?_⟩
  · exact List.sorted_insertionSort _ created
  · exact List.perm_insertionSort _ created

/-- C7: at every store state, the Reverse Order view's full traversal is
the Insertion Order view's full traversal read backward. -/
theorem claim_C7 (s : List Elem) :
    ∃ fwd bwd, ordTraverse s s = Except.ok fwd ∧
      revTraverse s s = Except.ok bwd ∧ bwd = fwd.reverse :=
  ⟨s, s.reverse, ordTraverse_eq s s, revTraverse_eq s s, rfl⟩

end MyContainer

namespace MyContainer

/-- C8: on an empty store every one of the six views traverses to the
empty sequence with no error and its begin cursor equals its end
cursor; on a one-element store every one of the six views traverses to
exactly that one element. -/
theorem claim_C8 :
    (ascTraverse [] [] = Except.ok [] ∧
     descTraverse [] [] = Except.ok [] ∧
     sideCrossTraverse [] [] = Except.ok [] ∧
     middleOutTraverse [] [] = Except.ok [] ∧
     ordTraverse [] [] = Except.ok [] ∧
     revTraverse [] [] = Except.ok []) ∧
    ((ascendingOrder []).begin.beqIter (ascendingOrder []).endIter = true ∧
     (descendingOrder []).begin.beqIter (descendingOrder []).endIter = true ∧
     (sideCrossOrder []).begin.beqIter (sideCrossOrder []).endIter = true ∧
     (middleOutOrder []).begin.beqIter (middleOutOrder []).endIter = true ∧
     (orderView []).begin.beqIter ((orderView []).endIter []) = true ∧
     (reverseOrder []).begin.beqIter ((reverseOrder []).endIter []) = true) ∧
    ∀ (x : Elem),
      ascTraverse [x] [x] = Except.ok [x] ∧
      descTraverse [x] [x] = Except.ok [x] ∧
      sideCrossTraverse [x] [x] = Except.ok [x] ∧
      middleOutTraverse [x] [x] = Except.ok [x] ∧
      ordTraverse [x] [x] = Except.ok [x] ∧
      revTraverse [x] [x] = Except.ok [x] := by
  refine ⟨⟨rfl, rfl, ?_, rfl, rfl, rfl⟩, by decide, ?_⟩
  · rw [sideCrossTraverse_eq]
    rfl
  · intro x
    refine ⟨?_, ?_, ?_, ?_, ?_, ?_⟩
    · rw [ascTraverse_eq, cppSortAsc_singleton]
    · rw [descTraverse_eq, cppSortDesc_singleton]
    · rw [sideCrossTraverse_eq, sideCrossSeq_singleton]
    · rw [middleOutTraverse_eq, middleOutSeq_singleton]
    · rw [ordTraverse_eq]
    · rw [revTraverse_eq]
      rfl

/-- C9 counterexample: advance the `AscendingOrder` view of the store
`1, 2` once; `begin()` on that view returns a cursor at position `1`,
not position `0`. -/
theorem claim_C9_counterexample :
    ¬ (((ascendingOrder [1, 2]).inc).begin.pos = 0) := by
  decide

/-- C9 amended: `begin()` returns a copy of the view at its *current*
cursor position (`return *this`), so after `n` advances it is at
position `n`; it is at position `0` exactly for a view whose cursor has
not been advanced.  (Shown for the two cited classes.) -/
theorem claim_C9_amended (c : List Elem) (n : Nat) :
    ((AscendingOrder.inc)^[n] (ascendingOrder c)).begin =
      (AscendingOrder.inc)^[n] (ascendingOrder c) ∧
    ((AscendingOrder.inc)^[n] (ascendingOrder c)).begin.pos = n ∧
    ((ReverseOrder.inc)^[n] (reverseOrder c)).begin =
      (ReverseOrder.inc)^[n] (reverseOrder c) ∧
    ((ReverseOrder.inc)^[n] (reverseOrder c)).begin.pos = n := by
  refine ⟨rfl, ?_, rfl, ?_⟩
  · rw [AscendingOrder.begin, ascInc_iterate_pos]
    simp [ascendingOrder]
  · rw [ReverseOrder.begin, revInc_iterate_pos]
    simp [reverseOrder]

/-- C10: when no slot equals `v`, `remove(v)` reports the NotFound error
and leaves the store contents exactly unchanged (the check-then-throw
happens before any mutation). -/
theorem claim_C10 (s : List Elem) (v : Elem) (h : s.count v = 0) :
    remove s v = (s, some CppError.notFound) :=
  remove_not_found s v (List.count_eq_zero.mp h)

/-- C10 witness: removing `3` from `[1, 2]` reports NotFound and keeps
the store at `[1, 2]`. -/
theorem claim_C10_witness :
    remove [1, 2] 3 = ([1, 2], some CppError.notFound) :=
  claim_C10 [1, 2] 3 (by decide)

end MyContainer
